import Mathlib

set_option maxHeartbeats 1000000

/-!
A verification development of the comment/notification core of the
test-websocket-server repository.

Modelling conventions (shallow embedding of the JavaScript source):

- JavaScript Maps are modelled as association lists (List (String × α)) in
  insertion order; Map.get is assoc-list lookup of the first matching key,
  Map.set replaces the value when the key is present and appends otherwise,
  mutation of a fetched record is an in-place value update at its key.
- JavaScript Sets of strings are lists in insertion order with
  membership-checked append.
- Comment content is a list of characters (a JS string is a sequence of
  code units); timestamps (ISO date strings compared via new Date) are
  naturals; uuidv4 results and current times are passed as parameters.
- undefined/null-valued optional fields are Option, with JS falsy-default
  idioms (a || b) rendered with Option.getD / Option.orElse.
- The class CommentManager declares addReaction twice; by JS class
  semantics the later (annotation-aware, four-argument) definition wins,
  so that is the one embedded here.
- Fields of no observable consequence to any verified property
  (context, the denormalised name/email copies on annotation comments)
  are omitted from the record; the source field named type is rendered
  ctype because type is a Lean keyword.
-/

/-- Actor snapshot stored inside a reaction entry (the object literal built
in addReaction from the acting user). -/
structure UserInfo where
  id : String
  username : String
  displayName : String
  firstName : String
  lastName : String
deriving DecidableEq, Repr

/-- The user argument passed to the annotation-aware addReaction: a loose
object whose fields may each be absent. -/
structure RUser where
  userId : Option String
  id : String
  username : Option String
  clientUserName : Option String
  displayName : Option String
  name : Option String
  firstName : Option String
  lastName : Option String
deriving DecidableEq, Repr

/-- A stored comment record (union of the fields written by createComment
and createCommentWithAnnotation; fields a given creator leaves undefined
are none / false / empty). -/
structure Comment where
  id : String
  annotationId : Option String
  itemId : Option String
  threadId : String
  threadType : String
  content : List Char
  ctype : Option String
  parentId : Option String
  isReply : Bool
  userId : String
  userInfo : UserInfo
  status : Option String
  createdAt : Nat
  updatedAt : Option Nat
  isDeleted : Bool
  reactions : List (String × List (String × UserInfo))
  replies : List String
deriving DecidableEq, Repr

/-- The CommentManager's two maps. -/
structure CommentStore where
  comments : List (String × Comment)
  threadComments : List (String × List String)
deriving DecidableEq, Repr

/-- The denormalised payload of a comment notification. -/
structure NotificationData where
  commentId : String
  threadId : String
  threadType : String
  authorId : String
  authorInfo : UserInfo
  content : List Char
  isReply : Bool
deriving DecidableEq, Repr

/-- A notification record (the source field named type is rendered ntype). -/
structure Notification where
  id : String
  ntype : String
  recipientId : String
  data : NotificationData
  read : Bool
  createdAt : Nat
  readAt : Option Nat
deriving DecidableEq, Repr

/-- The NotificationManager's two maps. -/
structure NStore where
  notifications : List (String × Notification)
  userNotifications : List (String × List String)
deriving DecidableEq, Repr

/-! ## Association-list primitives modelling JS Map operations -/

/-- Map.get: first value stored under a key. -/
def alookup {α : Type} : List (String × α) → String → Option α
  | [], _ => none
  | (k', v) :: rest, k => if k' = k then some v else alookup rest k

/-- In-place mutation of the record stored under a key (the JS idiom of
getting an object out of a Map and assigning to its fields). -/
def mapAtKey {α : Type} : List (String × α) → String → (α → α) → List (String × α)
  | [], _, _ => []
  | (k', v) :: rest, k, f =>
    if k' = k then (k', f v) :: mapAtKey rest k f
    else (k', v) :: mapAtKey rest k f

/-- Replacing the value under a key. -/
def aupdate {α : Type} (l : List (String × α)) (k : String) (v : α) :
    List (String × α) :=
  mapAtKey l k (fun _ => v)

/-- Map.set: replace when present, append when absent. -/
def aset {α : Type} (l : List (String × α)) (k : String) (v : α) :
    List (String × α) :=
  if l.any (fun p => decide (p.1 = k)) then aupdate l k v else l ++ [(k, v)]

theorem alookup_append {α : Type} (l m : List (String × α)) (k : String) :
    alookup (l ++ m) k =
      match alookup l k with
      | some v => some v
      | none => alookup m k := by
  induction l with
  | nil => simp [alookup]
  | cons p rest ih =>
    by_cases h : p.1 = k
    · cases p; simp_all [alookup]
    · cases p; simp_all [alookup]

theorem alookup_mapAtKey {α : Type} (l : List (String × α)) (k k' : String)
    (f : α → α) :
    alookup (mapAtKey l k f) k' =
      if k' = k then (alookup l k).map f else alookup l k' := by
  induction l with
  | nil => by_cases hk : k' = k <;> simp [alookup, mapAtKey, hk]
  | cons p rest ih =>
    cases p with
    | mk pk pv =>
      by_cases hk : pk = k
      · subst hk
        by_cases hk' : k' = pk
        · simp [alookup, mapAtKey, hk', ih]
        · simp [alookup, mapAtKey, hk', Ne.symm hk', ih]
      · by_cases hk' : pk = k'
        · subst hk'
          simp [alookup, mapAtKey, hk, ih, Ne.symm hk]
        · simp [alookup, mapAtKey, hk, hk', ih]

theorem alookup_aupdate_ne {α : Type} (l : List (String × α)) (k k' : String)
    (v : α) (h : k' ≠ k) : alookup (aupdate l k v) k' = alookup l k' := by
  simp [aupdate, alookup_mapAtKey, h]

theorem alookup_aupdate_self {α : Type} (l : List (String × α)) (k : String)
    (v : α) : alookup (aupdate l k v) k = (alookup l k).map (fun _ => v) := by
  simp [aupdate, alookup_mapAtKey]

theorem alookup_mem {α : Type} (l : List (String × α)) (k : String) (v : α) :
    alookup l k = some v → (k, v) ∈ l := by
  induction l with
  | nil => intro h; simp [alookup] at h
  | cons p rest ih =>
    intro h
    cases p with
    | mk pk pv =>
      by_cases hk : pk = k
      · subst hk
        simp [alookup] at h
        simp [h]
      · simp [alookup, hk] at h
        exact List.mem_cons_of_mem _ (ih h)

theorem alookup_eq_none_iff {α : Type} (l : List (String × α)) (k : String) :
    alookup l k = none ↔ ∀ p ∈ l, p.1 ≠ k := by
  induction l with
  | nil => simp [alookup]
  | cons p rest ih =>
    cases p with
    | mk pk pv =>
      by_cases hk : pk = k <;> simp_all [alookup, hk]

theorem alookup_aset_fresh {α : Type} (l : List (String × α)) (k k' : String)
    (v : α) (hfresh : alookup l k = none) :
    alookup (aset l k v) k' = if k' = k then some v else alookup l k' := by
  have hany : l.any (fun p => decide (p.1 = k)) = false := by
    rw [List.any_eq_false]
    intro p hp
    simp only [decide_eq_true_eq]
    exact (alookup_eq_none_iff l k).1 hfresh p hp
  rw [aset, hany]
  simp only [Bool.false_eq_true, if_false]
  rw [alookup_append]
  by_cases hk : k' = k
  · subst hk
    simp [hfresh, alookup]
  · cases hl : alookup l k' <;> simp [alookup, hk, Ne.symm hk, hl]

/-! ## Counting helpers used for tree-recursion measures -/

theorem length_filter_le_filter {α : Type} (l : List α) (p q : α → Bool)
    (h : ∀ x ∈ l, p x = true → q x = true) :
    (l.filter p).length ≤ (l.filter q).length := by
  induction l with
  | nil => simp
  | cons a rest ih =>
    have hrest := ih (fun x hx => h x (List.mem_cons_of_mem _ hx))
    by_cases hpa : p a = true
    · have hqa := h a (List.mem_cons_self _ _) hpa
      simp [List.filter_cons, hpa, hqa]
      omega
    · rw [Bool.not_eq_true] at hpa
      by_cases hqa : q a = true
      · simp [List.filter_cons, hpa, hqa]
        omega
      · rw [Bool.not_eq_true] at hqa
        simp [List.filter_cons, hpa, hqa]
        omega

theorem length_filter_lt_filter {α : Type} (l : List α) (p q : α → Bool)
    (a : α) (ha : a ∈ l) (hpa : p a = false) (hqa : q a = true)
    (h : ∀ x ∈ l, p x = true → q x = true) :
    (l.filter p).length < (l.filter q).length := by
  induction l with
  | nil => simp at ha
  | cons b rest ih =>
    rcases List.mem_cons.1 ha with hb | hb
    · subst hb
      simp [List.filter_cons, hpa, hqa]
      have := length_filter_le_filter rest p q
        (fun x hx => h x (List.mem_cons_of_mem _ hx))
      omega
    · have hrest := ih hb (fun x hx => h x (List.mem_cons_of_mem _ hx))
      by_cases hpb : p b = true
      · have hqb := h b (List.mem_cons_self _ _) hpb
        simp [List.filter_cons, hpb, hqb]
        omega
      · rw [Bool.not_eq_true] at hpb
        by_cases hqb : q b = true
        · simp [List.filter_cons, hpb, hqb]
          omega
        · rw [Bool.not_eq_true] at hqb
          simp [List.filter_cons, hpb, hqb]
          omega

theorem length_filter_lt_length {α : Type} (l : List α) (p : α → Bool)
    (a : α) (ha : a ∈ l) (hpa : p a = false) :
    (l.filter p).length < l.length := by
  have := length_filter_lt_filter l p (fun _ => true) a ha hpa rfl
    (fun x _ _ => rfl)
  simpa using this

/-! ## Sorting by createdAt (the ascending new-Date comparator; JS sort is
stable, as is insertion sort) -/

/-- The comparator new Date(a.createdAt) - new Date(b.createdAt) as a
relation. -/
def createdLE (a b : Comment) : Prop := a.createdAt ≤ b.createdAt

instance : DecidableRel createdLE := fun a b => Nat.decLe a.createdAt b.createdAt

instance : IsTotal Comment createdLE := ⟨fun a b => Nat.le_total a.createdAt b.createdAt⟩

instance : IsTrans Comment createdLE := ⟨fun _ _ _ => Nat.le_trans⟩

/-- sort((a, b) => new Date(a.createdAt) - new Date(b.createdAt)). -/
def sortByCreatedAt (l : List Comment) : List Comment :=
  List.insertionSort createdLE l

theorem sortByCreatedAt_sorted (l : List Comment) :
    List.Sorted createdLE (sortByCreatedAt l) :=
  List.sorted_insertionSort createdLE l

theorem sortByCreatedAt_perm (l : List Comment) :
    List.Perm (sortByCreatedAt l) l :=
  List.perm_insertionSort createdLE l

theorem sorted_head_min (c : Comment) (l : List Comment)
    (h : List.Sorted createdLE (c :: l)) :
    ∀ x ∈ c :: l, c.createdAt ≤ x.createdAt := by
  intro x hx
  rcases List.mem_cons.1 hx with hx | hx
  · subst hx; exact Nat.le_refl _
  · exact List.rel_of_sorted_cons h x hx

/-! ## CommentManager -/

/-- A node of the threaded structure returned by getCommentsForThread:
the spread comment with its replies field replaced by child nodes. -/
inductive CTree : Type where
  | node : Comment → List CTree → CTree

/-- The comment carried at a node. -/
def rootOf : CTree → Comment
  | .node c _ => c

namespace CommentManager

/-- The content written by the soft delete. -/
def redactedMarker : List Char := "[Comment deleted]".toList

/-- The thread key string threadType:threadId. -/
def threadKey (threadId threadType : String) : String :=
  threadType ++ ":" ++ threadId

/-- Input object of createComment. -/
structure NewCommentData where
  threadId : String
  threadType : String
  content : List Char
  userId : String
  userInfo : UserInfo
  parentId : Option String
deriving DecidableEq, Repr

/-- The comment object literal built by createComment. -/
def newCommentOf (d : NewCommentData) (newId : String) (now : Nat) : Comment :=
  { id := newId, annotationId := none, itemId := none,
    threadId := d.threadId, threadType := d.threadType,
    content := d.content, ctype := none, parentId := d.parentId,
    isReply := false, userId := d.userId, userInfo := d.userInfo,
    status := none, createdAt := now, updatedAt := none,
    isDeleted := false, reactions := [], replies := [] }

/-- createComment(commentData): builds the record, stores it, indexes it
under its thread key, and, when parentId is set and resolves, pushes the
new id onto the parent's replies; a non-resolving parentId is silently
ignored.  Returns the stored record. -/
def createComment (s : CommentStore) (d : NewCommentData) (newId : String)
    (now : Nat) : Comment × CommentStore :=
  let c : Comment := newCommentOf d newId now
  let comments1 := aset s.comments newId c
  let tk := threadKey d.threadId d.threadType
  let threads1 :=
    if s.threadComments.any (fun p => decide (p.1 = tk)) then s.threadComments
    else s.threadComments ++ [(tk, [])]
  let threads2 :=
    mapAtKey threads1 tk (fun ids => if newId ∈ ids then ids else ids ++ [newId])
  let comments2 :=
    match d.parentId with
    | none => comments1
    | some pid =>
      match alookup comments1 pid with
      | none => comments1
      | some p => aupdate comments1 pid { p with replies := p.replies ++ [newId] }
  let ret := (alookup comments2 newId).getD c
  (ret, { comments := comments2, threadComments := threads2 })

/-- The field assignments of the soft delete. -/
def redactComment (c : Comment) (now : Nat) : Comment :=
  { c with isDeleted := true, content := redactedMarker, updatedAt := some now }

/-- The cascade loop of deleteComment over comment.replies; a replies entry
that does not resolve makes the JS code dereference undefined, modelled as
none. -/
def redactReplies (now : Nat) : List String → List (String × Comment) →
    Option (List (String × Comment))
  | [], l => some l
  | rid :: rest, l =>
    match alookup l rid with
    | none => none
    | some r => redactReplies now rest (aupdate l rid (redactComment r now))

/-- deleteComment(commentId, userId): null when missing or not the author;
otherwise redacts the comment, redacts every id in its replies (one level,
without authorship checks), and returns this.comments — the entire store
collection. -/
def deleteComment (s : CommentStore) (commentId userId : String) (now : Nat) :
    Option (Option (List (String × Comment)) × CommentStore) :=
  match alookup s.comments commentId with
  | none => some (none, s)
  | some c =>
    if c.userId ≠ userId then some (none, s)
    else
      let l1 := aupdate s.comments commentId (redactComment c now)
      match redactReplies now c.replies l1 with
      | none => none
      | some l2 => some (some l2, { s with comments := l2 })

/-- The flat selection of getCommentsForThread: ids under the thread key,
resolved, kept when present and not deleted. -/
def flatForThread (s : CommentStore) (threadId threadType : String) :
    List Comment :=
  match alookup s.threadComments (threadKey threadId threadType) with
  | none => []
  | some ids =>
    (ids.filterMap (fun i => alookup s.comments i)).filter (fun c => !c.isDeleted)

/-- The paginated flat page: sorted ascending by createdAt, then
slice(offset, offset + limit). -/
def pageFor (s : CommentStore) (threadId threadType : String)
    (limit offset : Nat) : List Comment :=
  ((sortByCreatedAt (flatForThread s threadId threadType)).drop offset).take limit

/-- buildCommentTree: children of a node are the page comments whose
parentId is the node's id (the repliesMap grouping).  The JS recursion has
no fuel; it terminates on every store whose parent links are acyclic, and
the fuel page.length used at the call site is shown sufficient under that
assumption. -/
def buildCommentTree (page : List Comment) : Nat → Comment → CTree
  | 0, c => .node c []
  | n + 1, c =>
    .node c ((page.filter (fun r => decide (r.parentId = some c.id))).map
      (buildCommentTree page n))

/-- getCommentsForThread(threadId, threadType, limit, offset). -/
def getCommentsForThread (s : CommentStore) (threadId threadType : String)
    (limit offset : Nat) : List CTree :=
  let page := pageFor s threadId threadType limit offset
  (page.filter (fun c => decide (c.parentId = none))).map
    (buildCommentTree page page.length)

/-- getThreadParticipants(threadId, threadType): distinct userIds of the
present, non-deleted comments under the thread key, in Set insertion
order. -/
def getThreadParticipants (s : CommentStore) (threadId threadType : String) :
    List String :=
  match alookup s.threadComments (threadKey threadId threadType) with
  | none => []
  | some ids =>
    ids.foldl (fun acc i =>
      match alookup s.comments i with
      | none => acc
      | some c =>
        if c.isDeleted then acc
        else if c.userId ∈ acc then acc else acc ++ [c.userId]) []

/-- getCommentThread(annotationId).comments: every stored comment whose
annotationId strictly equals the argument and which is not deleted,
ascending by createdAt.  (The frontend formatting only reshapes the
reactions field and is dropped here.) -/
def getCommentThreadComments (s : CommentStore) (annotationId : Option String) :
    List Comment :=
  sortByCreatedAt
    ((s.comments.map Prod.snd).filter
      (fun c => decide (c.annotationId = annotationId) && !c.isDeleted))

end CommentManager

/-! ## Reaction ledger (the annotation-aware addReaction) -/

namespace CommentManager

/-- userId membership in a reaction Map's keys. -/
def memK (m : List (String × UserInfo)) (uid : String) : Prop :=
  uid ∈ m.map Prod.fst

instance (m : List (String × UserInfo)) (uid : String) : Decidable (memK m uid) := by
  unfold memK; infer_instance

/-- Map.delete(userId). -/
def delK (m : List (String × UserInfo)) (uid : String) :
    List (String × UserInfo) :=
  m.filter (fun p => decide (p.1 ≠ uid))

/-- Map.set(userId, userInfo). -/
def setE (m : List (String × UserInfo)) (uid : String) (v : UserInfo) :
    List (String × UserInfo) :=
  if m.any (fun p => decide (p.1 = uid)) then mapAtKey m uid (fun _ => v)
  else m ++ [(uid, v)]

/-- if (!comment.reactions[reactionType]) comment.reactions[reactionType] =
new Map(). -/
def ensureR (rs : List (String × List (String × UserInfo))) (t : String) :
    List (String × List (String × UserInfo)) :=
  if rs.any (fun p => decide (p.1 = t)) then rs else rs ++ [(t, [])]

/-- The exclusivity sweep: delete userId from every reaction type other
than reactionType. -/
def sweepR : List (String × List (String × UserInfo)) → String → String →
    List (String × List (String × UserInfo))
  | [], _, _ => []
  | (k, m) :: rest, t, uid =>
    if k = t then (k, m) :: sweepR rest t uid
    else (k, delK m uid) :: sweepR rest t uid

/-- Membership of an actor in the reactor set of a reaction type (an absent
type reads as the empty Map). -/
def memT (rs : List (String × List (String × UserInfo))) (t uid : String) :
    Prop :=
  memK ((alookup rs t).getD []) uid

instance (rs : List (String × List (String × UserInfo))) (t uid : String) :
    Decidable (memT rs t uid) := by
  unfold memT; infer_instance

/-- userId = user.userId || user.id. -/
def uidOf (user : RUser) : String := user.userId.getD user.id

/-- The userInfo literal captured at toggle time.  In JS the chain
user.firstName + ' ' + user.lastName stringifies undefined, so it is always
truthy and the || user.username tail is dead. -/
def mkReactionUserInfo (user : RUser) : UserInfo :=
  { id := uidOf user,
    username := (user.username.orElse (fun _ => user.clientUserName)).getD "Unknown User",
    displayName := (user.displayName.orElse (fun _ => user.name)).getD
      ((user.firstName.getD "undefined") ++ " " ++ (user.lastName.getD "undefined")),
    firstName := user.firstName.getD "Unknown",
    lastName := user.lastName.getD "User" }

/-- The value returned to the caller of addReaction. -/
structure ReactionSummary where
  rtype : String
  users : List UserInfo
  count : Nat
  userId : String
  userDisplayName : String
deriving DecidableEq, Repr

/-- The reaction table after one toggle: ensure the type's Map exists; if
the actor already holds this type, delete them from it; otherwise sweep
them out of every other type and set them here with their snapshot. -/
def toggledReactions (rs : List (String × List (String × UserInfo)))
    (reactionType uid : String) (uinfo : UserInfo) :
    List (String × List (String × UserInfo)) :=
  let r0 := ensureR rs reactionType
  if memT r0 reactionType uid then
    mapAtKey r0 reactionType (fun m => delK m uid)
  else
    mapAtKey (sweepR r0 reactionType uid) reactionType
      (fun m => setE m uid uinfo)

/-- The comment record after one toggle (reactions replaced, updatedAt
stamped). -/
def toggledComment (c : Comment) (reactionType : String) (user : RUser)
    (now : Nat) : Comment :=
  { c with
      reactions := toggledReactions c.reactions reactionType (uidOf user)
        (mkReactionUserInfo user),
      updatedAt := some now }

/-- addReaction(annotationId, commentId, reactionType, user): null when the
comment is missing or belongs to another annotation; otherwise ensures the
type's Map exists, then either removes the actor's existing reaction of
that type, or removes the actor from every other type and adds them to
this one; finally stamps updatedAt. -/
def addReaction (s : CommentStore) (annotationId commentId reactionType : String)
    (user : RUser) (now : Nat) : Option ReactionSummary × CommentStore :=
  match alookup s.comments commentId with
  | none => (none, s)
  | some c =>
    if c.annotationId ≠ some annotationId then (none, s)
    else
      let uid := uidOf user
      let uinfo := mkReactionUserInfo user
      let c' := toggledComment c reactionType user now
      let users := ((alookup c'.reactions reactionType).getD []).map Prod.snd
      (some { rtype := reactionType, users := users, count := users.length,
              userId := uid, userDisplayName := uinfo.displayName },
       { s with comments := aupdate s.comments commentId c' })

end CommentManager

/-! ## The add_comment reply resolution in server.js -/

/-- The payload fields of an add_comment request that the reply resolution
reads. -/
structure AddCommentRequest where
  itemId : Option String
  annotationId : Option String
  ctype : Option String
  parentId : Option String
  isReply : Option Bool
  parentCommentId : Option String
  parentAnnotationId : Option String
deriving DecidableEq, Repr

/-- const detectIsReply = isReply === true || type === "reply". -/
def detectIsReply (r : AddCommentRequest) : Bool :=
  decide (r.isReply = some true) || decide (r.ctype = some "reply")

/-- The reply branch of the add_comment handler: locate the thread by
parentAnnotationId || annotationId, take itemId and the default parentId
from its first (oldest) comment, prefer an explicit parentCommentId, and
throw Thread not found when the thread has no comments.  Returns none when
the request is not flagged as a reply. -/
def resolveReplyTarget (s : CommentStore) (r : AddCommentRequest) :
    Option (Except String (Option String × String)) :=
  if detectIsReply r then
    let threadAnnotationId := r.parentAnnotationId.orElse (fun _ => r.annotationId)
    match CommentManager.getCommentThreadComments s threadAnnotationId with
    | [] => some (Except.error "ThreadNotFound")
    | c0 :: _ => some (Except.ok (c0.itemId, r.parentCommentId.getD c0.id))
  else none

/-! ## NotificationManager -/

namespace NotificationManager

/-- The NotificationManager's own getThreadParticipants: the source is a
stub that ignores its arguments and returns the empty array ("Return empty
array for now"). -/
def getThreadParticipants (threadId threadType : String) : List String :=
  []

/-- truncateContent(content, maxLength). -/
def truncateContent (content : List Char) (maxLength : Nat) : List Char :=
  if content.length ≤ maxLength then content
  else content.take (maxLength - 3) ++ "...".toList

/-- The notification record built for one recipient inside
createCommentNotification. -/
def mkCommentNotification (nid recipientId : String) (comment : Comment)
    (now : Nat) : Notification :=
  { id := nid, ntype := "new_comment", recipientId := recipientId,
    data :=
      { commentId := comment.id, threadId := comment.threadId,
        threadType := comment.threadType, authorId := comment.userId,
        authorInfo := comment.userInfo,
        content := truncateContent comment.content 100,
        isReply := comment.parentId.isSome },
    read := false, createdAt := now, readAt := none }

/-- saveNotification(notification). -/
def saveNotification (ns : NStore) (n : Notification) : NStore :=
  { notifications := aset ns.notifications n.id n,
    userNotifications :=
      let l0 :=
        if ns.userNotifications.any (fun p => decide (p.1 = n.recipientId)) then
          ns.userNotifications
        else ns.userNotifications ++ [(n.recipientId, [])]
      mapAtKey l0 n.recipientId
        (fun ids => if n.id ∈ ids then ids else ids ++ [n.id]) }

/-- createCommentNotification(comment, authorId): recipients are the thread
participants (per this manager's own stub) minus the author; one
notification is saved per recipient.  freshIds supplies the uuids. -/
def createCommentNotification (ns : NStore) (comment : Comment)
    (authorId : String) (freshIds : List String) (now : Nat) : NStore :=
  let participants := getThreadParticipants comment.threadId comment.threadType
  let recipients := participants.filter (fun u => decide (u ≠ authorId))
  (recipients.zip (freshIds.take recipients.length)).foldl
    (fun acc p => saveNotification acc (mkCommentNotification p.2 p.1 comment now))
    ns

/-- markAsRead(notificationId, userId): false when missing or when the
caller is not the recipient (leaving the store untouched); otherwise sets
read and readAt and returns true. -/
def markAsRead (ns : NStore) (notificationId userId : String) (now : Nat) :
    Bool × NStore :=
  match alookup ns.notifications notificationId with
  | none => (false, ns)
  | some n =>
    if n.recipientId ≠ userId then (false, ns)
    else
      let n' : Notification := { n with read := true, readAt := some now }
      (true, { ns with notifications := aupdate ns.notifications notificationId n' })

end NotificationManager

/-! ## Concrete fixtures -/

/-- A baseline comment record fixtures are derived from. -/
def baseComment : Comment :=
  { id := "", annotationId := none, itemId := none, threadId := "T1",
    threadType := "thread", content := "hi".toList, ctype := none,
    parentId := none, isReply := false, userId := "",
    userInfo := { id := "", username := "u", displayName := "u",
                  firstName := "f", lastName := "l" },
    status := none, createdAt := 0, updatedAt := none, isDeleted := false,
    reactions := [], replies := [] }

/-- Thread T1: comment A by U1, reply B by U2, new comment C by U1 (the
fanout scenario of the spec). -/
def cmA1 : Comment := { baseComment with id := "A", userId := "U1", createdAt := 1 }

def cmB1 : Comment :=
  { baseComment with id := "B", userId := "U2", parentId := some "A", createdAt := 2 }

def cmC1 : Comment := { baseComment with id := "C", userId := "U1", createdAt := 3 }

def storeC1 : CommentStore :=
  { comments := [("A", cmA1), ("B", cmB1), ("C", cmC1)],
    threadComments := [("thread:T1", ["A", "B", "C"])] }

/-- An empty notification store. -/
def emptyNStore : NStore := { notifications := [], userNotifications := [] }

/-- A store with two unrelated comments by different authors. -/
def storeC2 : CommentStore :=
  { comments := [("A", { baseComment with id := "A", userId := "U1" }),
                 ("B", { baseComment with id := "B", userId := "U2" })],
    threadComments := [("thread:T1", ["A", "B"])] }

/-! ## Claim C1 -/

/-- Claim C1: the spec says comment-creation fanout creates one
notification per non-author participant of the anchor's thread.  The code
cannot: NotificationManager.createCommentNotification takes its participant
set from NotificationManager's own getThreadParticipants, a stub that
always returns the empty array, so the fanout saves nothing for any input —
even though CommentManager.getThreadParticipants computes exactly the
claimed participant set (U1 and U2 in the spec's scenario). -/
theorem c1_fanout_creates_no_notifications :
    (∀ (ns : NStore) (comment : Comment) (authorId : String)
        (freshIds : List String) (now : Nat),
        NotificationManager.createCommentNotification ns comment authorId
          freshIds now = ns)
    ∧ CommentManager.getThreadParticipants storeC1 "T1" "thread" = ["U1", "U2"] := by
  constructor
  · intro ns comment authorId freshIds now
    rfl
  · decide

/-! ## Claim C2 -/

/-- Claim C2: the spec requires softDelete to return the deleted comment;
deleteComment instead returns this.comments, the store's entire collection.
Deleting A (by its author U1) in a two-comment store returns the full
two-entry map with keys A and B, not the single redacted record. -/
theorem c2_softDelete_returns_whole_store :
    (CommentManager.deleteComment storeC2 "A" "U1" 5).map
        (fun r => r.1.map (fun l => l.map Prod.fst)) = some (some ["A", "B"]) := by
  decide

/-! ## Claim C9 -/

/-- The success branch of markAsRead, written out. -/
theorem markAsRead_some (ns : NStore) (n : Notification) (nid uid : String)
    (now : Nat) (hn : alookup ns.notifications nid = some n)
    (hr : n.recipientId = uid) :
    NotificationManager.markAsRead ns nid uid now =
      (true,
        NStore.mk
          (aupdate ns.notifications nid ({ n with read := true, readAt := some now }))
          ns.userNotifications) := by
  simp [NotificationManager.markAsRead, hn, hr]

/-- Claim C9: markAsRead returns false when the notification is missing,
returns false leaving the store unchanged when the caller is not the
recipient, otherwise sets read and readAt and returns true; a second call
by the recipient still returns true and read stays true. -/
theorem c9_markRead_auth_and_idempotent (ns : NStore) (nid uid : String)
    (t1 t2 : Nat) :
    (alookup ns.notifications nid = none →
      NotificationManager.markAsRead ns nid uid t1 = (false, ns)) ∧
    (∀ n, alookup ns.notifications nid = some n → n.recipientId ≠ uid →
      NotificationManager.markAsRead ns nid uid t1 = (false, ns)) ∧
    (∀ n, alookup ns.notifications nid = some n → n.recipientId = uid →
      (NotificationManager.markAsRead ns nid uid t1).1 = true ∧
      alookup (NotificationManager.markAsRead ns nid uid t1).2.notifications nid =
        some { n with read := true, readAt := some t1 } ∧
      (NotificationManager.markAsRead
        (NotificationManager.markAsRead ns nid uid t1).2 nid uid t2).1 = true ∧
      (∃ n2, alookup (NotificationManager.markAsRead
          (NotificationManager.markAsRead ns nid uid t1).2 nid uid t2).2.notifications
            nid = some n2 ∧ n2.read = true)) := by
  refine ⟨?_, ?_, ?_⟩
  · intro h
    simp [NotificationManager.markAsRead, h]
  · intro n hn hr
    simp [NotificationManager.markAsRead, hn, hr]
  · intro n hn hr
    have e1 := markAsRead_some ns n nid uid t1 hn hr
    have h2 : alookup (NotificationManager.markAsRead ns nid uid t1).2.notifications nid
        = some ({ n with read := true, readAt := some t1 }) := by
      rw [e1]
      simp [alookup_aupdate_self, hn]
    have e2 := markAsRead_some (NotificationManager.markAsRead ns nid uid t1).2
      ({ n with read := true, readAt := some t1 }) nid uid t2 h2 hr
    refine ⟨by rw [e1], h2, by rw [e2], ?_⟩
    refine ⟨{ n with read := true, readAt := some t2 }, ?_, rfl⟩
    rw [e2]
    simp [alookup_aupdate_self, h2]

/-- The notification fixture used by the C9 witness. -/
def notifW : Notification :=
  { id := "N1", ntype := "new_comment", recipientId := "U",
    data := { commentId := "C", threadId := "T1", threadType := "thread",
              authorId := "U2",
              authorInfo := { id := "U2", username := "u", displayName := "u",
                              firstName := "f", lastName := "l" },
              content := "hi".toList, isReply := false },
    read := false, createdAt := 1, readAt := none }

def nsW : NStore :=
  { notifications := [("N1", notifW)], userNotifications := [("U", ["N1"])] }

/-- Witness for C9 at a concrete store: missing id fails, wrong actor
fails, the recipient succeeds and succeeds again. -/
theorem c9_markRead_witness :
    NotificationManager.markAsRead nsW "NX" "U" 1 = (false, nsW) ∧
    NotificationManager.markAsRead nsW "N1" "V" 1 = (false, nsW) ∧
    (NotificationManager.markAsRead nsW "N1" "U" 1).1 = true ∧
    (NotificationManager.markAsRead
      (NotificationManager.markAsRead nsW "N1" "U" 1).2 "N1" "U" 2).1 = true := by
  refine ⟨(c9_markRead_auth_and_idempotent nsW "NX" "U" 1 2).1 (by decide),
          (c9_markRead_auth_and_idempotent nsW "N1" "V" 1 2).2.1 notifW (by decide) (by decide),
          ((c9_markRead_auth_and_idempotent nsW "N1" "U" 1 2).2.2 notifW (by decide) rfl).1,
          ((c9_markRead_auth_and_idempotent nsW "N1" "U" 1 2).2.2 notifW (by decide) rfl).2.2.1⟩

/-! ## Claim C10 -/

/-- Claim C10: the notification payload summary is the triggering comment's
content when that content has at most 100 characters, and otherwise its
first 97 characters followed by three dots; in both cases the summary never
exceeds 100 characters. -/
theorem c10_payload_truncation (c : Comment) (nid rid : String) (now : Nat) :
    ((c.content.length ≤ 100 →
        (NotificationManager.mkCommentNotification nid rid c now).data.content
          = c.content) ∧
     (100 < c.content.length →
        (NotificationManager.mkCommentNotification nid rid c now).data.content
          = c.content.take 97 ++ "...".toList)) ∧
    (NotificationManager.mkCommentNotification nid rid c now).data.content.length
      ≤ 100 := by
  by_cases h : c.content.length ≤ 100
  · refine ⟨⟨fun _ => ?_, fun h' => absurd h (by omega)⟩, ?_⟩
    · simp [NotificationManager.mkCommentNotification,
        NotificationManager.truncateContent, h]
    · simp [NotificationManager.mkCommentNotification,
        NotificationManager.truncateContent, h]
  · refine ⟨⟨fun h' => absurd h' h, fun _ => ?_⟩, ?_⟩
    · simp [NotificationManager.mkCommentNotification,
        NotificationManager.truncateContent, h]
    · simp [NotificationManager.mkCommentNotification,
        NotificationManager.truncateContent, h, List.length_take]

/-- The over-length comment used by the C10 witness. -/
def longComment : Comment := { baseComment with content := List.replicate 150 'a' }

/-- Witness for C10: a 150-character content is truncated to at most 100
characters, and a 2-character content is passed through verbatim. -/
theorem c10_payload_truncation_witness :
    (NotificationManager.mkCommentNotification "n" "r" longComment 0).data.content.length
      ≤ 100 ∧
    (NotificationManager.mkCommentNotification "n" "r" baseComment 0).data.content
      = baseComment.content := by
  exact ⟨(c10_payload_truncation longComment "n" "r" 0).2,
         (c10_payload_truncation baseComment "n" "r" 0).1.1 (by decide)⟩

/-! ## Claim C4 -/

/-- The single pre-existing comment of the C4 store. -/
def cmX4 : Comment := { baseComment with id := "X", userId := "U1", createdAt := 1 }

def storeC4 : CommentStore :=
  { comments := [("X", cmX4)], threadComments := [("thread:T1", ["X"])] }

/-- A creation request whose parentId does not resolve. -/
def d4 : CommentManager.NewCommentData :=
  { threadId := "T1", threadType := "thread", content := "hi".toList,
    userId := "U2", userInfo := baseComment.userInfo, parentId := some "P" }

/-- The same request pointed at the existing comment X. -/
def d4x : CommentManager.NewCommentData := { d4 with parentId := some "X" }

/-- Counterexample to claim C4: creating with the unresolvable parentId P
does not fail with NotFound — createComment completes, returns the new
comment, and stores it with the dangling parentId. -/
theorem c4_create_missing_parent_counterexample :
    (CommentManager.createComment storeC4 d4 "N" 3).1.id = "N" ∧
    (CommentManager.createComment storeC4 d4 "N" 3).1.parentId = some "P" ∧
    alookup (CommentManager.createComment storeC4 d4 "N" 3).2.comments "N" =
      some (CommentManager.createComment storeC4 d4 "N" 3).1 := by
  decide

/-- Claim C4 as amended: when a supplied parentId does not resolve,
createComment succeeds anyway — it returns the new comment carrying the
dangling parentId, stores it, and changes no other comment; when the
parent does resolve (whether or not it shares the anchor), the new id is
appended to the parent's replies. -/
theorem c4_create_missing_parent_amended (s : CommentStore)
    (d : CommentManager.NewCommentData) (newId : String) (now : Nat)
    (hfresh : alookup s.comments newId = none) :
    (∀ pid, d.parentId = some pid → pid ≠ newId →
      alookup s.comments pid = none →
      (CommentManager.createComment s d newId now).1.id = newId ∧
      (CommentManager.createComment s d newId now).1.parentId = some pid ∧
      alookup (CommentManager.createComment s d newId now).2.comments newId =
        some (CommentManager.createComment s d newId now).1 ∧
      (∀ k, k ≠ newId →
        alookup (CommentManager.createComment s d newId now).2.comments k =
          alookup s.comments k)) ∧
    (∀ pid p, d.parentId = some pid → alookup s.comments pid = some p →
      alookup (CommentManager.createComment s d newId now).2.comments pid =
        some ({ p with replies := p.replies ++ [newId] })) := by
  constructor
  · intro pid hp hpn hnone
    have hpar : alookup (aset s.comments newId (CommentManager.newCommentOf d newId now)) pid = none := by
      rw [alookup_aset_fresh s.comments newId pid _ hfresh]
      simp [hpn, hnone]
    have hself : alookup (aset s.comments newId (CommentManager.newCommentOf d newId now)) newId
        = some (CommentManager.newCommentOf d newId now) := by
      rw [alookup_aset_fresh s.comments newId newId _ hfresh]
      simp
    refine ⟨?_, ?_, ?_, ?_⟩
    · simp only [CommentManager.createComment, hp, hpar, hself]
      rfl
    · simp only [CommentManager.createComment, hp, hpar, hself]
      simp [CommentManager.newCommentOf, hp]
    · simp only [CommentManager.createComment, hp, hpar, hself]
      rfl
    · intro k hk
      simp only [CommentManager.createComment, hp, hpar, hself]
      rw [alookup_aset_fresh s.comments newId k _ hfresh]
      simp [hk]
  · intro pid p hp hsome
    have hpn : pid ≠ newId := by
      intro he
      rw [he, hfresh] at hsome
      exact Option.noConfusion hsome
    have hpar : alookup (aset s.comments newId (CommentManager.newCommentOf d newId now)) pid = some p := by
      rw [alookup_aset_fresh s.comments newId pid _ hfresh]
      simp [hpn, hsome]
    simp only [CommentManager.createComment, hp, hpar]
    rw [alookup_aupdate_self]
    rw [hpar]
    rfl

/-- Witness for the amended C4 at concrete inputs: a dangling parentId P is
kept and nothing fails, and a resolving parentId X gets the new id appended
to its replies. -/
theorem c4_create_missing_parent_amended_witness :
    ((CommentManager.createComment storeC4 d4 "N" 3).1.id = "N" ∧
     (CommentManager.createComment storeC4 d4 "N" 3).1.parentId = some "P") ∧
    alookup (CommentManager.createComment storeC4 d4x "N" 3).2.comments "X" =
      some ({ cmX4 with replies := cmX4.replies ++ ["N"] }) := by
  have h1 := (c4_create_missing_parent_amended storeC4 d4 "N" 3 (by decide)).1
    "P" rfl (by decide) (by decide)
  have h2 := (c4_create_missing_parent_amended storeC4 d4x "N" 3 (by decide)).2
    "X" cmX4 rfl (by decide)
  exact ⟨⟨h1.1, h1.2.1⟩, h2⟩

/-! ## Claim C3 -/

/-- Everything the cascade loop does not name is untouched. -/
theorem redactReplies_not_mem (now : Nat) (rids : List String)
    (l' : List (String × Comment)) (cid : String) :
    ∀ l, CommentManager.redactReplies now rids l = some l' → cid ∉ rids →
      alookup l' cid = alookup l cid := by
  induction rids with
  | nil =>
    intro l h _
    simp [CommentManager.redactReplies] at h
    rw [h]
  | cons rid rest ih =>
    intro l h hcid
    simp only [CommentManager.redactReplies] at h
    cases hr : alookup l rid with
    | none => rw [hr] at h; exact absurd h (by simp)
    | some r =>
      rw [hr] at h
      have hcid' : cid ∉ rest := fun hm => hcid (List.mem_cons_of_mem _ hm)
      have hne : cid ≠ rid := fun he => hcid (by simp [he])
      rw [ih _ h hcid']
      exact alookup_aupdate_ne _ _ _ _ hne

/-- Every id the cascade loop names ends up redacted, with its own replies
list intact. -/
theorem redactReplies_mem (now : Nat) (rids : List String)
    (l' : List (String × Comment)) (rid : String) :
    ∀ l (r : Comment), CommentManager.redactReplies now rids l = some l' →
      rid ∈ rids → alookup l rid = some r →
      ∃ r', alookup l' rid = some r' ∧ r'.isDeleted = true ∧
        r'.content = CommentManager.redactedMarker ∧ r'.replies = r.replies := by
  induction rids with
  | nil => intro l r _ hmem _; simp at hmem
  | cons b rest ih =>
    intro l r h hmem hr
    simp only [CommentManager.redactReplies] at h
    cases hb : alookup l b with
    | none => rw [hb] at h; exact absurd h (by simp)
    | some rb =>
      rw [hb] at h
      by_cases hrb : rid = b
      · subst hrb
        have hrr : rb = r := by rw [hr] at hb; exact (Option.some.inj hb).symm
        subst hrr
        have hl2 : alookup (aupdate l rid (CommentManager.redactComment rb now)) rid
            = some (CommentManager.redactComment rb now) := by
          rw [alookup_aupdate_self, hb]; rfl
        by_cases hrest : rid ∈ rest
        · obtain ⟨r', h1, h2, h3, h4⟩ := ih _ _ h hrest hl2
          exact ⟨r', h1, h2, h3, h4⟩
        · rw [redactReplies_not_mem now rest _ rid _ h hrest]
          exact ⟨_, hl2, rfl, rfl, rfl⟩
      · have hrest : rid ∈ rest := by
          rcases List.mem_cons.1 hmem with he | hm
          · exact absurd he hrb
          · exact hm
        have hl2 : alookup (aupdate l b (CommentManager.redactComment rb now)) rid = some r := by
          rw [alookup_aupdate_ne _ _ _ _ hrb]; exact hr
        exact ih _ _ h hrest hl2

/-- Claim C3: soft-deleting comment A by its author redacts every comment
listed in A.replies (isDeleted true, content the fixed marker, no
authorship re-check), and any comment listed in such a B's replies — as
long as it is not itself named by A.replies or A's id — keeps exactly its
old record: the cascade is one level deep, never transitive. -/
theorem c3_cascade_one_level (s : CommentStore) (aid uid : String) (now : Nat)
    (A B : Comment) (bid : String)
    (hA : alookup s.comments aid = some A) (hAu : A.userId = uid)
    (hbid : bid ∈ A.replies) (hB : alookup s.comments bid = some B)
    (hwf : ∀ cid ∈ B.replies, cid ∉ A.replies ∧ cid ≠ aid)
    (hsucc : (CommentManager.deleteComment s aid uid now).isSome = true) :
    ∃ r, CommentManager.deleteComment s aid uid now = some r ∧
      (∃ B', alookup r.2.comments bid = some B' ∧ B'.isDeleted = true ∧
        B'.content = CommentManager.redactedMarker ∧ B'.replies = B.replies) ∧
      (∀ cid ∈ B.replies, alookup r.2.comments cid = alookup s.comments cid) := by
  cases hred : CommentManager.redactReplies now A.replies
      (aupdate s.comments aid (CommentManager.redactComment A now)) with
  | none =>
    have hnone : CommentManager.deleteComment s aid uid now = none := by
      simp [CommentManager.deleteComment, hA, hAu, hred]
    rw [hnone] at hsucc
    simp at hsucc
  | some l2 =>
    have hdel : CommentManager.deleteComment s aid uid now =
        some (some l2, CommentStore.mk l2 s.threadComments) := by
      simp [CommentManager.deleteComment, hA, hAu, hred]
    refine ⟨_, hdel, ?_, ?_⟩
    · by_cases hba : bid = aid
      · subst hba
        have hBA : B = A := by rw [hA] at hB; exact (Option.some.inj hB).symm
        subst hBA
        have hB1 : alookup (aupdate s.comments bid (CommentManager.redactComment B now)) bid
            = some (CommentManager.redactComment B now) := by
          rw [alookup_aupdate_self, hA]; rfl
        obtain ⟨r', h1, h2, h3, h4⟩ := redactReplies_mem now B.replies l2 bid _ _ hred hbid hB1
        exact ⟨r', h1, h2, h3, h4⟩
      · have hB1 : alookup (aupdate s.comments aid (CommentManager.redactComment A now)) bid
            = some B := by
          rw [alookup_aupdate_ne _ _ _ _ hba]; exact hB
        obtain ⟨r', h1, h2, h3, h4⟩ := redactReplies_mem now A.replies l2 bid _ _ hred hbid hB1
        exact ⟨r', h1, h2, h3, h4⟩
    · intro cid hcid
      obtain ⟨hnotA, hnotaid⟩ := hwf cid hcid
      have h1 : alookup l2 cid =
          alookup (aupdate s.comments aid (CommentManager.redactComment A now)) cid :=
        redactReplies_not_mem now A.replies l2 cid _ hred hnotA
      rw [h1, alookup_aupdate_ne _ _ _ _ hnotaid]

/-- C3 fixtures: A (author U1) with direct reply B (author U2), which has
its own reply C (author U3). -/
def cmC3A : Comment :=
  { baseComment with id := "A", userId := "U1", createdAt := 1, replies := ["B"] }

def cmC3B : Comment :=
  { baseComment with id := "B", userId := "U2", createdAt := 2, parentId := some "A", replies := ["C"] }

def cmC3C : Comment :=
  { baseComment with id := "C", userId := "U3", createdAt := 3, parentId := some "B" }

def storeC3 : CommentStore :=
  { comments := [("A", cmC3A), ("B", cmC3B), ("C", cmC3C)],
    threadComments := [("thread:T1", ["A", "B", "C"])] }

/-- Witness for C3: deleting A by U1 redacts B (keeping B.replies = [C])
and leaves C byte-for-byte unchanged. -/
theorem c3_cascade_one_level_witness :
    ((CommentManager.deleteComment storeC3 "A" "U1" 9).bind
        (fun r => alookup r.2.comments "B")).map
        (fun b => (b.isDeleted, b.content, b.replies)) =
      some (true, CommentManager.redactedMarker, ["C"]) ∧
    (CommentManager.deleteComment storeC3 "A" "U1" 9).bind
        (fun r => alookup r.2.comments "C") = some cmC3C := by
  obtain ⟨r, hr, ⟨B', h1, h2, h3, h4⟩, hframe⟩ :=
    c3_cascade_one_level storeC3 "A" "U1" 9 cmC3A cmC3B "B"
      (by decide) (by decide) (by decide) (by decide) (by decide) (by decide)
  constructor
  · rw [hr]
    simp [h1, h2, h3, h4]
    decide
  · rw [hr]
    have hc := hframe "C" (by decide)
    simp [hc]
    decide

/-! ## Claim C8 -/

/-- Claim C8: for a reply-flagged request (isReply === true or
type === "reply"), the resolution fails with ThreadNotFound when no
non-deleted comment exists under the target annotation id; otherwise the
resolved itemId and the default parentId come from the oldest (minimal
createdAt) non-deleted comment under that annotation id, with an explicit
parentCommentId taking precedence for the parentId. -/
theorem c8_resolveReplyTarget (s : CommentStore) (r : AddCommentRequest)
    (hreply : detectIsReply r = true) :
    (CommentManager.getCommentThreadComments s
        (r.parentAnnotationId.orElse (fun _ => r.annotationId)) = [] →
      resolveReplyTarget s r = some (Except.error "ThreadNotFound")) ∧
    (∀ c0 cs, CommentManager.getCommentThreadComments s
        (r.parentAnnotationId.orElse (fun _ => r.annotationId)) = c0 :: cs →
      resolveReplyTarget s r =
        some (Except.ok (c0.itemId, r.parentCommentId.getD c0.id)) ∧
      c0.isDeleted = false ∧
      c0.annotationId = r.parentAnnotationId.orElse (fun _ => r.annotationId) ∧
      (∃ k, (k, c0) ∈ s.comments) ∧
      (∀ k c, (k, c) ∈ s.comments →
        c.annotationId = r.parentAnnotationId.orElse (fun _ => r.annotationId) →
        c.isDeleted = false → c0.createdAt ≤ c.createdAt)) := by
  constructor
  · intro h
    simp [resolveReplyTarget, hreply, h]
  · intro c0 cs h
    have hmem_iff : ∀ c : Comment,
        c ∈ ((s.comments.map Prod.snd).filter
          (fun c => decide (c.annotationId =
            r.parentAnnotationId.orElse (fun _ => r.annotationId)) && !c.isDeleted)) ↔
        c ∈ c0 :: cs := by
      intro c
      have hperm := sortByCreatedAt_perm
        ((s.comments.map Prod.snd).filter
          (fun c => decide (c.annotationId =
            r.parentAnnotationId.orElse (fun _ => r.annotationId)) && !c.isDeleted))
      rw [CommentManager.getCommentThreadComments] at h
      rw [h] at hperm
      exact hperm.mem_iff.symm
    have hc0 : c0 ∈ ((s.comments.map Prod.snd).filter
        (fun c => decide (c.annotationId =
          r.parentAnnotationId.orElse (fun _ => r.annotationId)) && !c.isDeleted)) :=
      (hmem_iff c0).2 (List.mem_cons_self _ _)
    obtain ⟨hc0m, hc0p⟩ := List.mem_filter.1 hc0
    rw [Bool.and_eq_true, decide_eq_true_eq, Bool.not_eq_true'] at hc0p
    have hsorted := sortByCreatedAt_sorted
      ((s.comments.map Prod.snd).filter
        (fun c => decide (c.annotationId =
          r.parentAnnotationId.orElse (fun _ => r.annotationId)) && !c.isDeleted))
    rw [CommentManager.getCommentThreadComments] at h
    rw [h] at hsorted
    refine ⟨?_, hc0p.2, hc0p.1, ?_, ?_⟩
    · simp [resolveReplyTarget, hreply, CommentManager.getCommentThreadComments, h]
    · obtain ⟨p, hp, hpe⟩ := List.mem_map.1 hc0m
      exact ⟨p.1, by rw [← hpe]; simpa using hp⟩
    · intro k c hkc hann hdel
      have hcf : c ∈ ((s.comments.map Prod.snd).filter
          (fun c => decide (c.annotationId =
            r.parentAnnotationId.orElse (fun _ => r.annotationId)) && !c.isDeleted)) := by
        rw [List.mem_filter]
        refine ⟨List.mem_map.2 ⟨(k, c), hkc, rfl⟩, ?_⟩
        rw [Bool.and_eq_true, decide_eq_true_eq, Bool.not_eq_true']
        exact ⟨hann, hdel⟩
      have hcm : c ∈ c0 :: cs := (hmem_iff c).1 hcf
      exact sorted_head_min c0 cs hsorted c hcm

/-- C8 fixtures: two non-deleted comments under annotation X on item I1,
plus an empty store. -/
def cmC8A : Comment :=
  { baseComment with id := "A", annotationId := some "X", itemId := some "I1", createdAt := 1, userId := "U1" }

def cmC8B : Comment :=
  { baseComment with id := "B", annotationId := some "X", itemId := some "I1", createdAt := 2, userId := "U2", parentId := some "A" }

def storeC8 : CommentStore :=
  { comments := [("A", cmC8A), ("B", cmC8B)],
    threadComments := [("item:I1", ["A", "B"])] }

def emptyStore : CommentStore := { comments := [], threadComments := [] }

/-- A reply-flagged add_comment request targeting annotation X. -/
def rq8 : AddCommentRequest :=
  { itemId := none, annotationId := some "X", ctype := none, parentId := none,
    isReply := some true, parentCommentId := none, parentAnnotationId := none }

/-- Witness for C8: under an empty store the reply resolution fails with
ThreadNotFound; with comments A (createdAt 1) and B (createdAt 2) under X
it resolves to A's itemId and A's id. -/
theorem c8_resolveReplyTarget_witness :
    resolveReplyTarget emptyStore rq8 = some (Except.error "ThreadNotFound") ∧
    resolveReplyTarget storeC8 rq8 = some (Except.ok (some "I1", "A")) := by
  refine ⟨(c8_resolveReplyTarget emptyStore rq8 (by decide)).1 (by decide), ?_⟩
  have h := (c8_resolveReplyTarget storeC8 rq8 (by decide)).2 cmC8A [cmC8B] (by decide)
  exact h.1

/-! ## Reaction membership lemmas -/

namespace CommentManager

theorem any_key_iff {α : Type} (l : List (String × α)) (k : String) :
    l.any (fun p => decide (p.1 = k)) = true ↔ ∃ v, alookup l k = some v := by
  induction l with
  | nil => simp [alookup]
  | cons p rest ih =>
    cases p with
    | mk pk pv =>
      by_cases hk : pk = k <;> simp_all [alookup, hk]

theorem alookup_ensureR (rs : List (String × List (String × UserInfo)))
    (t t' : String) :
    alookup (ensureR rs t) t' =
      if t' = t then some ((alookup rs t).getD []) else alookup rs t' := by
  by_cases hany : rs.any (fun p => decide (p.1 = t)) = true
  · obtain ⟨v, hv⟩ := (any_key_iff rs t).1 hany
    rw [ensureR, if_pos hany]
    by_cases ht : t' = t
    · subst ht; rw [hv]; simp [hv]
    · simp [ht]
  · have hnone : alookup rs t = none := by
      cases hl : alookup rs t with
      | none => rfl
      | some v => exact absurd ((any_key_iff rs t).2 ⟨v, hl⟩) hany
    rw [ensureR, if_neg hany, alookup_append]
    by_cases ht : t' = t
    · subst ht; rw [hnone]; simp [alookup, hnone]
    · cases hl : alookup rs t' <;> simp [alookup, ht, Ne.symm ht, hl]

theorem alookup_sweepR (rs : List (String × List (String × UserInfo)))
    (t uid t' : String) :
    alookup (sweepR rs t uid) t' =
      if t' = t then alookup rs t
      else (alookup rs t').map (fun m => delK m uid) := by
  induction rs with
  | nil => by_cases ht : t' = t <;> simp [alookup, sweepR, ht]
  | cons p rest ih =>
    cases p with
    | mk pk pv =>
      by_cases hpk : pk = t
      · subst hpk
        by_cases ht : t' = pk
        · subst ht; simp [alookup, sweepR, ih]
        · simp [alookup, sweepR, ht, Ne.symm ht, ih]
      · by_cases hpt : pk = t'
        · subst hpt
          simp [alookup, sweepR, hpk, Ne.symm hpk, ih]
        · simp [alookup, sweepR, hpk, hpt, ih]

theorem keys_mapAtKey {α : Type} (l : List (String × α)) (k : String)
    (f : α → α) : (mapAtKey l k f).map Prod.fst = l.map Prod.fst := by
  induction l with
  | nil => simp [mapAtKey]
  | cons p rest ih =>
    cases p with
    | mk pk pv => by_cases hpk : pk = k <;> simp [mapAtKey, hpk, ih]

theorem memK_delK (m : List (String × UserInfo)) (uid u : String) :
    memK (delK m uid) u ↔ u ≠ uid ∧ memK m u := by
  simp only [memK, delK, List.mem_map, List.mem_filter]
  constructor
  · rintro ⟨p, ⟨hp, hne⟩, he⟩
    simp only [decide_eq_true_eq] at hne
    exact ⟨by rw [← he]; exact hne, ⟨p, hp, he⟩⟩
  · rintro ⟨hne, ⟨p, hp, he⟩⟩
    exact ⟨p, ⟨hp, by simp [he, hne]⟩, he⟩

theorem memK_setE (m : List (String × UserInfo)) (uid : String) (v : UserInfo)
    (u : String) :
    memK (setE m uid v) u ↔ u = uid ∨ memK m u := by
  rw [setE]
  by_cases hany : m.any (fun p => decide (p.1 = uid)) = true
  · rw [if_pos hany]
    rw [memK, keys_mapAtKey, ← memK]
    constructor
    · intro h; exact Or.inr h
    · rintro (he | h)
      · subst he
        obtain ⟨w, hw⟩ := (any_key_iff m u).1 hany
        exact List.mem_map.2 ⟨(u, w), alookup_mem m u w hw, rfl⟩
      · exact h
  · rw [if_neg hany]
    rw [memK, memK, List.map_append]
    simp only [List.map_cons, List.map_nil, List.mem_append,
      List.mem_singleton]
    constructor
    · rintro (h | he)
      · exact Or.inr h
      · exact Or.inl he
    · rintro (he | h)
      · exact Or.inr he
      · exact Or.inl h

theorem memT_ensureR (rs : List (String × List (String × UserInfo)))
    (t t' u : String) : memT (ensureR rs t) t' u ↔ memT rs t' u := by
  rw [memT, memT, alookup_ensureR]
  by_cases ht : t' = t
  · subst ht
    simp only [if_pos rfl]
    cases hl : alookup rs t' <;> simp [memK]
  · rw [if_neg ht]

end CommentManager

/-! ## Characterising one reaction toggle -/

namespace CommentManager

/-- The membership effect of one toggle, written as a predicate on the
original table: if the actor held the type, only their entry of that type
disappears; otherwise they are removed everywhere else and added to it. -/
def toggledMem (rs : List (String × List (String × UserInfo)))
    (rt uid t u : String) : Prop :=
  if memT rs rt uid then
    (if t = rt then u ≠ uid ∧ memT rs t u else memT rs t u)
  else
    (if t = rt then u = uid ∨ memT rs t u else u ≠ uid ∧ memT rs t u)

theorem memT_toggledReactions (rs : List (String × List (String × UserInfo)))
    (rt uid : String) (uinfo : UserInfo) (t u : String) :
    memT (toggledReactions rs rt uid uinfo) t u ↔ toggledMem rs rt uid t u := by
  rw [toggledReactions, toggledMem]
  by_cases hhas : memT (ensureR rs rt) rt uid
  · have hhas' : memT rs rt uid := (memT_ensureR rs rt rt uid).1 hhas
    rw [if_pos hhas, if_pos hhas']
    by_cases ht : t = rt
    · subst ht
      rw [if_pos rfl, memT, alookup_mapAtKey, if_pos rfl, alookup_ensureR,
        if_pos rfl]
      simp only [Option.map_some', Option.getD_some]
      rw [memK_delK]
      exact Iff.rfl
    · rw [if_neg ht, memT, alookup_mapAtKey, if_neg ht, alookup_ensureR,
        if_neg ht]
      exact Iff.rfl
  · have hhas' : ¬ memT rs rt uid := fun h => hhas ((memT_ensureR rs rt rt uid).2 h)
    rw [if_neg hhas, if_neg hhas']
    by_cases ht : t = rt
    · subst ht
      rw [if_pos rfl, memT, alookup_mapAtKey, if_pos rfl, alookup_sweepR,
        if_pos rfl, alookup_ensureR, if_pos rfl]
      simp only [Option.map_some', Option.getD_some]
      rw [memK_setE]
      exact Iff.rfl
    · rw [if_neg ht, memT, alookup_mapAtKey, if_neg ht, alookup_sweepR,
        if_neg ht, alookup_ensureR, if_neg ht]
      cases hl : alookup rs t with
      | none => simp [memK, memT, hl]
      | some m => simp [memT, hl, memK_delK]

theorem addReaction_comments (s : CommentStore) (aid cid rt : String)
    (user : RUser) (now : Nat) (c : Comment)
    (hc : alookup s.comments cid = some c) (hann : c.annotationId = some aid) :
    (addReaction s aid cid rt user now).2.comments =
      aupdate s.comments cid (toggledComment c rt user now) := by
  simp [addReaction, hc, hann]

theorem addReaction_lookup_self (s : CommentStore) (aid cid rt : String)
    (user : RUser) (now : Nat) (c : Comment)
    (hc : alookup s.comments cid = some c) (hann : c.annotationId = some aid) :
    alookup (addReaction s aid cid rt user now).2.comments cid =
      some (toggledComment c rt user now) := by
  rw [addReaction_comments s aid cid rt user now c hc hann,
    alookup_aupdate_self, hc]
  rfl

end CommentManager

/-! ## The reaction exclusivity invariant (claim C5) -/

namespace CommentManager

/-- Claim C5's invariant on one comment: unique type keys, at most one
entry per actorId inside each type's Map, and every actor in at most one
type's reactor set. -/
def CommentReactInvariant (c : Comment) : Prop :=
  ((c.reactions.map Prod.fst).Nodup) ∧
  (∀ p ∈ c.reactions, (p.2.map Prod.fst).Nodup) ∧
  (∀ u t t', memT c.reactions t u → memT c.reactions t' u → t = t')

/-- The invariant over every stored comment. -/
def StoreReactInvariant (s : CommentStore) : Prop :=
  ∀ p ∈ s.comments, CommentReactInvariant p.2

theorem keys_sweepR (rs : List (String × List (String × UserInfo)))
    (t uid : String) : (sweepR rs t uid).map Prod.fst = rs.map Prod.fst := by
  induction rs with
  | nil => simp [sweepR]
  | cons p rest ih =>
    cases p with
    | mk pk pv => by_cases hpk : pk = t <;> simp [sweepR, hpk, ih]

theorem mem_mapAtKey {α : Type} (l : List (String × α)) (k : String)
    (f : α → α) : ∀ p ∈ mapAtKey l k f, ∃ q ∈ l, p = q ∨ p = (q.1, f q.2) := by
  induction l with
  | nil => simp [mapAtKey]
  | cons q rest ih =>
    intro p hp
    cases q with
    | mk qk qv =>
      by_cases hqk : qk = k
      · rw [mapAtKey, if_pos hqk] at hp
        rcases List.mem_cons.1 hp with he | hm
        · exact ⟨(qk, qv), List.mem_cons_self _ _, Or.inr he⟩
        · obtain ⟨q', hq', he'⟩ := ih p hm
          exact ⟨q', List.mem_cons_of_mem _ hq', he'⟩
      · rw [mapAtKey, if_neg hqk] at hp
        rcases List.mem_cons.1 hp with he | hm
        · exact ⟨(qk, qv), List.mem_cons_self _ _, Or.inl he⟩
        · obtain ⟨q', hq', he'⟩ := ih p hm
          exact ⟨q', List.mem_cons_of_mem _ hq', he'⟩

theorem mem_sweepR (rs : List (String × List (String × UserInfo)))
    (t uid : String) :
    ∀ p ∈ sweepR rs t uid, ∃ q ∈ rs, p = q ∨ p = (q.1, delK q.2 uid) := by
  induction rs with
  | nil => simp [sweepR]
  | cons q rest ih =>
    intro p hp
    cases q with
    | mk qk qv =>
      by_cases hqk : qk = t
      · rw [sweepR, if_pos hqk] at hp
        rcases List.mem_cons.1 hp with he | hm
        · exact ⟨(qk, qv), List.mem_cons_self _ _, Or.inl he⟩
        · obtain ⟨q', hq', he'⟩ := ih p hm
          exact ⟨q', List.mem_cons_of_mem _ hq', he'⟩
      · rw [sweepR, if_neg hqk] at hp
        rcases List.mem_cons.1 hp with he | hm
        · exact ⟨(qk, qv), List.mem_cons_self _ _, Or.inr he⟩
        · obtain ⟨q', hq', he'⟩ := ih p hm
          exact ⟨q', List.mem_cons_of_mem _ hq', he'⟩

theorem mem_ensureR (rs : List (String × List (String × UserInfo)))
    (t : String) : ∀ p ∈ ensureR rs t, p ∈ rs ∨ p = (t, []) := by
  intro p hp
  rw [ensureR] at hp
  by_cases hany : rs.any (fun q => decide (q.1 = t)) = true
  · rw [if_pos hany] at hp; exact Or.inl hp
  · rw [if_neg hany] at hp
    rcases List.mem_append.1 hp with hm | hm
    · exact Or.inl hm
    · exact Or.inr (List.mem_singleton.1 hm)

theorem nodup_keys_delK (m : List (String × UserInfo)) (uid : String)
    (h : (m.map Prod.fst).Nodup) : ((delK m uid).map Prod.fst).Nodup :=
  List.Nodup.sublist (List.Sublist.map Prod.fst (List.filter_sublist m)) h

theorem not_mem_keys_of_not_any {α : Type} (l : List (String × α)) (k : String)
    (hany : ¬ l.any (fun p => decide (p.1 = k)) = true) : k ∉ l.map Prod.fst := by
  intro hk
  obtain ⟨p, hp, he⟩ := List.mem_map.1 hk
  exact hany (List.any_eq_true.2 ⟨p, hp, by simp [he]⟩)

theorem nodup_keys_setE (m : List (String × UserInfo)) (uid : String)
    (v : UserInfo) (h : (m.map Prod.fst).Nodup) :
    ((setE m uid v).map Prod.fst).Nodup := by
  rw [setE]
  by_cases hany : m.any (fun p => decide (p.1 = uid)) = true
  · rw [if_pos hany, keys_mapAtKey]; exact h
  · rw [if_neg hany, List.map_append]
    simp only [List.map_cons, List.map_nil]
    rw [List.nodup_append]
    refine ⟨h, List.nodup_singleton _, ?_⟩
    intro a ha hb
    rw [List.mem_singleton] at hb
    rw [hb] at ha
    exact not_mem_keys_of_not_any m uid hany ha

theorem nodup_keys_ensureR (rs : List (String × List (String × UserInfo)))
    (t : String) (h : (rs.map Prod.fst).Nodup) :
    ((ensureR rs t).map Prod.fst).Nodup := by
  rw [ensureR]
  by_cases hany : rs.any (fun q => decide (q.1 = t)) = true
  · rw [if_pos hany]; exact h
  · rw [if_neg hany, List.map_append]
    simp only [List.map_cons, List.map_nil]
    rw [List.nodup_append]
    refine ⟨h, List.nodup_singleton _, ?_⟩
    intro a ha hb
    rw [List.mem_singleton] at hb
    rw [hb] at ha
    exact not_mem_keys_of_not_any rs t hany ha

theorem toggledMem_exclusive (rs : List (String × List (String × UserInfo)))
    (rt uid : String)
    (hexcl : ∀ u t t', memT rs t u → memT rs t' u → t = t') :
    ∀ u t t', toggledMem rs rt uid t u → toggledMem rs rt uid t' u → t = t' := by
  intro u t t' h1 h2
  rw [toggledMem] at h1 h2
  by_cases hhas : memT rs rt uid
  · rw [if_pos hhas] at h1 h2
    have m1 : memT rs t u := by
      by_cases ht : t = rt
      · rw [if_pos ht] at h1; exact h1.2
      · rw [if_neg ht] at h1; exact h1
    have m2 : memT rs t' u := by
      by_cases ht' : t' = rt
      · rw [if_pos ht'] at h2; exact h2.2
      · rw [if_neg ht'] at h2; exact h2
    exact hexcl u t t' m1 m2
  · rw [if_neg hhas] at h1 h2
    by_cases ht : t = rt
    · by_cases ht' : t' = rt
      · rw [ht, ht']
      · rw [if_pos ht] at h1
        rw [if_neg ht'] at h2
        rcases h1 with he | hm
        · exact absurd he h2.1
        · exact hexcl u t t' hm h2.2
    · by_cases ht' : t' = rt
      · rw [if_neg ht] at h1
        rw [if_pos ht'] at h2
        rcases h2 with he | hm
        · exact absurd he h1.1
        · exact hexcl u t t' h1.2 hm
      · rw [if_neg ht] at h1
        rw [if_neg ht'] at h2
        exact hexcl u t t' h1.2 h2.2

theorem toggledReactions_invariant (rs : List (String × List (String × UserInfo)))
    (rt uid : String) (uinfo : UserInfo)
    (h1 : (rs.map Prod.fst).Nodup)
    (h2 : ∀ p ∈ rs, (p.2.map Prod.fst).Nodup)
    (h3 : ∀ u t t', memT rs t u → memT rs t' u → t = t') :
    ((toggledReactions rs rt uid uinfo).map Prod.fst).Nodup ∧
    (∀ p ∈ toggledReactions rs rt uid uinfo, (p.2.map Prod.fst).Nodup) ∧
    (∀ u t t', memT (toggledReactions rs rt uid uinfo) t u →
      memT (toggledReactions rs rt uid uinfo) t' u → t = t') := by
  have hens : ∀ p ∈ ensureR rs rt, (p.2.map Prod.fst).Nodup := by
    intro p hp
    rcases mem_ensureR rs rt p hp with h | h
    · exact h2 p h
    · rw [h]; simp
  refine ⟨?_, ?_, ?_⟩
  · rw [toggledReactions]
    by_cases hhas : memT (ensureR rs rt) rt uid
    · rw [if_pos hhas, keys_mapAtKey]
      exact nodup_keys_ensureR rs rt h1
    · rw [if_neg hhas, keys_mapAtKey, keys_sweepR]
      exact nodup_keys_ensureR rs rt h1
  · rw [toggledReactions]
    by_cases hhas : memT (ensureR rs rt) rt uid
    · rw [if_pos hhas]
      intro p hp
      obtain ⟨q, hq, he⟩ := mem_mapAtKey _ rt _ p hp
      rcases he with he | he
      · rw [he]; exact hens q hq
      · rw [he]; exact nodup_keys_delK _ _ (hens q hq)
    · rw [if_neg hhas]
      intro p hp
      obtain ⟨q, hq, he⟩ := mem_mapAtKey _ rt _ p hp
      have hqn : (q.2.map Prod.fst).Nodup := by
        obtain ⟨q', hq', he'⟩ := mem_sweepR _ rt uid q hq
        rcases he' with he' | he'
        · rw [he']; exact hens q' hq'
        · rw [he']; exact nodup_keys_delK _ _ (hens q' hq')
      rcases he with he | he
      · rw [he]; exact hqn
      · rw [he]; exact nodup_keys_setE _ _ _ hqn
  · intro u t t' ha hb
    rw [memT_toggledReactions] at ha hb
    exact toggledMem_exclusive rs rt uid h3 u t t' ha hb

end CommentManager

/-! ## Claim C5 -/

/-- Claim C5: addReaction preserves the reaction invariant on every stored
comment (at most one entry per actorId inside a type's Map, and each actor
in at most one type's set at any instant); in particular, toggling like and
then heart for an actor who did not hold both leaves the actor out of the
like set and inside the heart set. -/
theorem c5_reaction_exclusivity :
    (∀ (s : CommentStore) (aid cid rt : String) (user : RUser) (now : Nat),
      CommentManager.StoreReactInvariant s →
      CommentManager.StoreReactInvariant
        (CommentManager.addReaction s aid cid rt user now).2) ∧
    (∀ (s : CommentStore) (aid cid : String) (user : RUser) (n1 n2 : Nat)
        (c : Comment),
      alookup s.comments cid = some c → c.annotationId = some aid →
      ¬(CommentManager.memT c.reactions "like" (CommentManager.uidOf user) ∧
        CommentManager.memT c.reactions "heart" (CommentManager.uidOf user)) →
      ∃ c2, alookup (CommentManager.addReaction
          (CommentManager.addReaction s aid cid "like" user n1).2
          aid cid "heart" user n2).2.comments cid = some c2 ∧
        ¬ CommentManager.memT c2.reactions "like" (CommentManager.uidOf user) ∧
        CommentManager.memT c2.reactions "heart" (CommentManager.uidOf user)) := by
  constructor
  · intro s aid cid rt user now hinv
    cases hc : alookup s.comments cid with
    | none =>
      have hsame : (CommentManager.addReaction s aid cid rt user now).2 = s := by
        simp [CommentManager.addReaction, hc]
      rw [hsame]; exact hinv
    | some c =>
      by_cases hann : c.annotationId = some aid
      · have hcom := CommentManager.addReaction_comments s aid cid rt user now c hc hann
        intro p hp
        rw [hcom] at hp
        rw [aupdate] at hp
        obtain ⟨q, hq, he⟩ := CommentManager.mem_mapAtKey _ cid _ p hp
        rcases he with he | he
        · rw [he]; exact hinv q hq
        · obtain ⟨h1, h2, h3⟩ := hinv (cid, c) (alookup_mem _ _ _ hc)
          have ht := CommentManager.toggledReactions_invariant c.reactions rt
            (CommentManager.uidOf user) (CommentManager.mkReactionUserInfo user) h1 h2 h3
          rw [he]
          exact ⟨ht.1, ht.2.1, ht.2.2⟩
      · have hsame : (CommentManager.addReaction s aid cid rt user now).2 = s := by
          simp [CommentManager.addReaction, hc, hann]
        rw [hsame]; exact hinv
  · intro s aid cid user n1 n2 c hc hann hboth
    have h1c := CommentManager.addReaction_lookup_self s aid cid "like" user n1 c hc hann
    have hann1 : (CommentManager.toggledComment c "like" user n1).annotationId = some aid := hann
    have h2c := CommentManager.addReaction_lookup_self _ aid cid "heart" user n2 _ h1c hann1
    have htr : ∀ (c' : Comment) (rt' : String) (now' : Nat),
        (CommentManager.toggledComment c' rt' user now').reactions =
          CommentManager.toggledReactions c'.reactions rt'
            (CommentManager.uidOf user) (CommentManager.mkReactionUserInfo user) :=
      fun _ _ _ => rfl
    have hhas2 : ¬ CommentManager.memT
        (CommentManager.toggledComment c "like" user n1).reactions "heart"
        (CommentManager.uidOf user) := by
      rw [htr, CommentManager.memT_toggledReactions, CommentManager.toggledMem]
      by_cases hlike : CommentManager.memT c.reactions "like" (CommentManager.uidOf user)
      · rw [if_pos hlike, if_neg (show ("heart" : String) ≠ "like" by decide)]
        intro h; exact hboth ⟨hlike, h⟩
      · rw [if_neg hlike, if_neg (show ("heart" : String) ≠ "like" by decide)]
        rintro ⟨hne, _⟩; exact hne rfl
    rw [htr] at hhas2
    refine ⟨_, h2c, ?_, ?_⟩
    · rw [htr, CommentManager.memT_toggledReactions, CommentManager.toggledMem,
        htr, if_neg hhas2, if_neg (show ("like" : String) ≠ "heart" by decide)]
      rintro ⟨hne, _⟩; exact hne rfl
    · rw [htr, CommentManager.memT_toggledReactions, CommentManager.toggledMem,
        htr, if_neg hhas2, if_pos rfl]
      exact Or.inl rfl

/-- C5/C6 witness fixtures: one stored comment under annotation AN and a
bare acting user U. -/
def cW5 : Comment := { baseComment with id := "C", annotationId := some "AN" }

def sW5 : CommentStore := { comments := [("C", cW5)], threadComments := [] }

def uW : RUser :=
  { userId := none, id := "U", username := none, clientUserName := none,
    displayName := none, name := none, firstName := none, lastName := none }

/-- Witness for C5: from an invariant-satisfying store, one toggle keeps
the invariant, and like-then-heart leaves U out of like and in heart. -/
theorem c5_reaction_exclusivity_witness :
    CommentManager.StoreReactInvariant
      (CommentManager.addReaction sW5 "AN" "C" "like" uW 1).2 ∧
    (∃ c2, alookup (CommentManager.addReaction
        (CommentManager.addReaction sW5 "AN" "C" "like" uW 1).2
        "AN" "C" "heart" uW 2).2.comments "C" = some c2 ∧
      ¬ CommentManager.memT c2.reactions "like" (CommentManager.uidOf uW) ∧
      CommentManager.memT c2.reactions "heart" (CommentManager.uidOf uW)) := by
  have hinv : CommentManager.StoreReactInvariant sW5 := by
    intro p hp
    rcases List.mem_singleton.1 hp with he
    rw [he]
    refine ⟨by simp [cW5, baseComment], by simp [cW5, baseComment], ?_⟩
    intro u t t' h1 h2
    exfalso
    simp [CommentManager.memT, CommentManager.memK, cW5, baseComment, alookup] at h1
  exact ⟨c5_reaction_exclusivity.1 sW5 "AN" "C" "like" uW 1 hinv,
         c5_reaction_exclusivity.2 sW5 "AN" "C" uW 1 2 cW5 (by decide) (by decide)
           (by decide)⟩

/-! ## Claim C6 -/

/-- A comment whose actor U currently holds a heart reaction. -/
def cW6 : Comment :=
  { baseComment with id := "C", annotationId := some "AN", reactions := [("heart", [("U", { id := "U", username := "u", displayName := "u", firstName := "f", lastName := "l" })])] }

def sW6 : CommentStore := { comments := [("C", cW6)], threadComments := [] }

/-- Counterexample to claim C6 as stated: toggling like twice for U, who
held a heart reaction, does not restore the reactor sets — the first like
toggle's exclusivity sweep deletes U from heart, and the second toggle
(a pure removal) never restores it.  U was in heart before and is in no
set after. -/
theorem c6_toggle_involution_counterexample :
    CommentManager.memT cW6.reactions "heart" "U" ∧
    ((alookup (CommentManager.addReaction
        (CommentManager.addReaction sW6 "AN" "C" "like" uW 1).2
        "AN" "C" "like" uW 2).2.comments "C").map
      (fun c2 => decide (CommentManager.memT c2.reactions "heart" "U")))
      = some false := by
  decide

/-- Claim C6 as amended: the double toggle is an involution on reactor-set
membership provided the acting actor holds no reaction of any type other
than the toggled one beforehand (the exclusivity sweep of the first toggle
would otherwise erase that other reaction for good). -/
theorem c6_toggle_involution_amended (s : CommentStore) (aid cid rt : String)
    (user : RUser) (n1 n2 : Nat) (c : Comment)
    (hc : alookup s.comments cid = some c) (hann : c.annotationId = some aid)
    (hother : ∀ t, t ≠ rt →
      ¬ CommentManager.memT c.reactions t (CommentManager.uidOf user)) :
    ∃ c2, alookup (CommentManager.addReaction
        (CommentManager.addReaction s aid cid rt user n1).2
        aid cid rt user n2).2.comments cid = some c2 ∧
      ∀ t u, CommentManager.memT c2.reactions t u ↔
        CommentManager.memT c.reactions t u := by
  have h1c := CommentManager.addReaction_lookup_self s aid cid rt user n1 c hc hann
  have hann1 : (CommentManager.toggledComment c rt user n1).annotationId = some aid := hann
  have h2c := CommentManager.addReaction_lookup_self _ aid cid rt user n2 _ h1c hann1
  have htr : ∀ (c' : Comment) (rt' : String) (now' : Nat),
      (CommentManager.toggledComment c' rt' user now').reactions =
        CommentManager.toggledReactions c'.reactions rt'
          (CommentManager.uidOf user) (CommentManager.mkReactionUserInfo user) :=
    fun _ _ _ => rfl
  refine ⟨_, h2c, ?_⟩
  intro t u
  rw [htr, CommentManager.memT_toggledReactions]
  have hm1 : ∀ t' u', CommentManager.memT
      (CommentManager.toggledComment c rt user n1).reactions t' u' ↔
      CommentManager.toggledMem c.reactions rt (CommentManager.uidOf user) t' u' := by
    intro t' u'
    rw [htr, CommentManager.memT_toggledReactions]
  by_cases hhas : CommentManager.memT c.reactions rt (CommentManager.uidOf user)
  · have hhas2 : ¬ CommentManager.memT
        (CommentManager.toggledComment c rt user n1).reactions rt
        (CommentManager.uidOf user) := by
      rw [hm1, CommentManager.toggledMem, if_pos hhas, if_pos rfl]
      rintro ⟨hne, _⟩; exact hne rfl
    rw [CommentManager.toggledMem, if_neg hhas2]
    by_cases ht : t = rt
    · subst ht
      rw [if_pos rfl]
      constructor
      · rintro (he | hm)
        · rw [he]; exact hhas
        · rw [hm1, CommentManager.toggledMem, if_pos hhas, if_pos rfl] at hm
          exact hm.2
      · intro hm
        by_cases hu : u = CommentManager.uidOf user
        · exact Or.inl hu
        · refine Or.inr ?_
          rw [hm1, CommentManager.toggledMem, if_pos hhas, if_pos rfl]
          exact ⟨hu, hm⟩
    · rw [if_neg ht]
      constructor
      · rintro ⟨hne, hm⟩
        rw [hm1, CommentManager.toggledMem, if_pos hhas, if_neg ht] at hm
        exact hm
      · intro hm
        refine ⟨?_, ?_⟩
        · intro he
          rw [he] at hm
          exact hother t ht hm
        · rw [hm1, CommentManager.toggledMem, if_pos hhas, if_neg ht]
          exact hm
  · have hhas2 : CommentManager.memT
        (CommentManager.toggledComment c rt user n1).reactions rt
        (CommentManager.uidOf user) := by
      rw [hm1, CommentManager.toggledMem, if_neg hhas, if_pos rfl]
      exact Or.inl rfl
    rw [CommentManager.toggledMem, if_pos hhas2]
    by_cases ht : t = rt
    · subst ht
      rw [if_pos rfl]
      constructor
      · rintro ⟨hne, hm⟩
        rw [hm1, CommentManager.toggledMem, if_neg hhas, if_pos rfl] at hm
        rcases hm with he | hm
        · exact absurd he hne
        · exact hm
      · intro hm
        refine ⟨?_, ?_⟩
        · intro he
          rw [he] at hm
          exact hhas hm
        · rw [hm1, CommentManager.toggledMem, if_neg hhas, if_pos rfl]
          exact Or.inr hm
    · rw [if_neg ht]
      rw [hm1, CommentManager.toggledMem, if_neg hhas, if_neg ht]
      constructor
      · rintro ⟨_, hm⟩; exact hm
      · intro hm
        refine ⟨?_, hm⟩
        intro he
        rw [he] at hm
        exact hother t ht hm

/-- Witness for the amended C6: toggling heart twice for U, who holds only
heart, restores every reactor set. -/
theorem c6_toggle_involution_amended_witness :
    ∃ c2, alookup (CommentManager.addReaction
        (CommentManager.addReaction sW6 "AN" "C" "heart" uW 1).2
        "AN" "C" "heart" uW 2).2.comments "C" = some c2 ∧
      ∀ t u, CommentManager.memT c2.reactions t u ↔
        CommentManager.memT cW6.reactions t u := by
  refine c6_toggle_involution_amended sW6 "AN" "C" "heart" uW 1 2 cW6
    (by decide) (by decide) ?_
  intro t ht h
  rw [CommentManager.memT] at h
  have : alookup cW6.reactions t = none := by
    rw [alookup_eq_none_iff]
    intro p hp
    rcases List.mem_singleton.1 hp with he
    rw [he]
    exact Ne.symm ht
  rw [this] at h
  simp [CommentManager.memK] at h

/-! ## Claim C7 -/

/-- The claim's description of a correctly assembled node: its children are
exactly the selected page comments whose parentId equals the node's id,
recursively so. -/
inductive ChildrenOk (page : List Comment) : CTree → Prop where
  | node : ∀ (c : Comment) (kids : List CTree),
      kids.map rootOf = page.filter (fun r => decide (r.parentId = some c.id)) →
      (∀ k ∈ kids, ChildrenOk page k) →
      ChildrenOk page (CTree.node c kids)

theorem rootOf_buildCommentTree (page : List Comment) (n : Nat) (c : Comment) :
    rootOf (CommentManager.buildCommentTree page n c) = c := by
  cases n <;> rfl

/-- With enough fuel (measured by how many page comments sit strictly above
the node in any rank that makes parent links decreasing), buildCommentTree
produces exactly the repliesMap grouping at every node. -/
theorem childrenOk_buildCommentTree (page : List Comment) (rank : String → Nat)
    (hr : ∀ x ∈ page, ∀ p ∈ page, x.parentId = some p.id →
      rank p.id < rank x.id) :
    ∀ (n : Nat) (c : Comment), c ∈ page →
      (page.filter (fun x => decide (rank c.id < rank x.id))).length < n →
      ChildrenOk page (CommentManager.buildCommentTree page n c) := by
  intro n
  induction n with
  | zero => intro c _ hm; exact absurd hm (by omega)
  | succ m ih =>
    intro c hcp hm
    rw [CommentManager.buildCommentTree]
    refine ChildrenOk.node c _ ?_ ?_
    · rw [List.map_map]
      have hcong : ∀ a ∈ page.filter (fun r => decide (r.parentId = some c.id)),
          (rootOf ∘ CommentManager.buildCommentTree page m) a = id a := by
        intro a _
        simp [rootOf_buildCommentTree]
      rw [List.map_congr_left hcong, List.map_id]
    · intro k hk
      obtain ⟨kc, hkc, hke⟩ := List.mem_map.1 hk
      have hkcp : kc ∈ page := (List.mem_filter.1 hkc).1
      have hpar : kc.parentId = some c.id := by
        have := (List.mem_filter.1 hkc).2
        simpa using this
      have hrank : rank c.id < rank kc.id := hr kc hkcp c hcp hpar
      have hmk : (page.filter (fun x => decide (rank kc.id < rank x.id))).length < m := by
        have himp : ∀ x ∈ page,
            decide (rank kc.id < rank x.id) = true →
            decide (rank c.id < rank x.id) = true := by
          intro x _ hx
          simp only [decide_eq_true_eq] at hx ⊢
          omega
        have hlt := length_filter_lt_filter page
          (fun x => decide (rank kc.id < rank x.id))
          (fun x => decide (rank c.id < rank x.id))
          kc hkcp (by simp) (by simp [hrank]) himp
        omega
      rw [← hke]
      exact ih kc hkcp hmk

theorem mem_pageFor (s : CommentStore) (threadId threadType : String)
    (limit offset : Nat) (x : Comment)
    (hx : x ∈ CommentManager.pageFor s threadId threadType limit offset) :
    ∃ k, (k, x) ∈ s.comments := by
  rw [CommentManager.pageFor] at hx
  have h1 : x ∈ sortByCreatedAt (CommentManager.flatForThread s threadId threadType) :=
    (List.drop_sublist _ _).subset ((List.take_sublist _ _).subset hx)
  have h2 : x ∈ CommentManager.flatForThread s threadId threadType :=
    (sortByCreatedAt_perm _).subset h1
  rw [CommentManager.flatForThread] at h2
  cases hl : alookup s.threadComments (CommentManager.threadKey threadId threadType) with
  | none => rw [hl] at h2; simp at h2
  | some ids =>
    rw [hl] at h2
    have h3 := (List.mem_filter.1 h2).1
    obtain ⟨i, _, hi⟩ := List.mem_filterMap.1 h3
    exact ⟨i, alookup_mem _ _ _ hi⟩

/-- Claim C7 as amended: getCommentsForThread selects the non-deleted
comments under the anchor, sorts them ascending by createdAt, paginates
over that flat ordering, and assembles the tree whose top-level nodes are
exactly the page comments with NO parentId (a page comment whose parent is
outside the page is dropped entirely, not promoted), each node's children
being exactly the page comments whose parentId equals the node's id.
The rank hypothesis states that parent links are acyclic. -/
theorem c7_listForAnchor_amended (s : CommentStore) (threadId threadType : String)
    (limit offset : Nat) (rank : String → Nat)
    (hr : ∀ pk ∈ s.comments, ∀ qk ∈ s.comments,
      (pk : String × Comment).2.parentId = some (qk : String × Comment).2.id →
      rank qk.2.id < rank pk.2.id) :
    List.Sorted createdLE
      (sortByCreatedAt (CommentManager.flatForThread s threadId threadType)) ∧
    List.Perm (sortByCreatedAt (CommentManager.flatForThread s threadId threadType))
      (CommentManager.flatForThread s threadId threadType) ∧
    CommentManager.pageFor s threadId threadType limit offset =
      ((sortByCreatedAt (CommentManager.flatForThread s threadId threadType)).drop
        offset).take limit ∧
    (CommentManager.getCommentsForThread s threadId threadType limit offset).map
        rootOf =
      (CommentManager.pageFor s threadId threadType limit offset).filter
        (fun c => decide (c.parentId = none)) ∧
    (∀ tnode ∈ CommentManager.getCommentsForThread s threadId threadType limit offset,
      ChildrenOk (CommentManager.pageFor s threadId threadType limit offset) tnode) := by
  have hpage : ∀ x ∈ CommentManager.pageFor s threadId threadType limit offset,
      ∀ p ∈ CommentManager.pageFor s threadId threadType limit offset,
      x.parentId = some p.id → rank p.id < rank x.id := by
    intro x hx p hp hpar
    obtain ⟨kx, hkx⟩ := mem_pageFor s threadId threadType limit offset x hx
    obtain ⟨kp, hkp⟩ := mem_pageFor s threadId threadType limit offset p hp
    exact hr (kx, x) hkx (kp, p) hkp hpar
  refine ⟨sortByCreatedAt_sorted _, sortByCreatedAt_perm _, rfl, ?_, ?_⟩
  · rw [CommentManager.getCommentsForThread, List.map_map]
    have hcong : ∀ a ∈ (CommentManager.pageFor s threadId threadType limit offset).filter
        (fun c => decide (c.parentId = none)),
        (rootOf ∘ CommentManager.buildCommentTree
          (CommentManager.pageFor s threadId threadType limit offset)
          (CommentManager.pageFor s threadId threadType limit offset).length) a = id a := by
      intro a _
      simp [rootOf_buildCommentTree]
    rw [List.map_congr_left hcong, List.map_id]
  · intro tnode ht
    rw [CommentManager.getCommentsForThread] at ht
    obtain ⟨c, hc, hce⟩ := List.mem_map.1 ht
    have hcp : c ∈ CommentManager.pageFor s threadId threadType limit offset :=
      (List.mem_filter.1 hc).1
    have hmeas : ((CommentManager.pageFor s threadId threadType limit offset).filter
        (fun x => decide (rank c.id < rank x.id))).length <
        (CommentManager.pageFor s threadId threadType limit offset).length :=
      length_filter_lt_length _ _ c hcp (by simp)
    rw [← hce]
    exact childrenOk_buildCommentTree _ rank hpage _ c hcp hmeas

/-- Modelled from the claim's words (used only to refute the claim as
stated): the claimed top-level node set — selected comments with no
parentId or whose parent lies outside the selected page. -/
def specTopLevelNodes (page : List Comment) : List Comment :=
  page.filter (fun c =>
    decide (c.parentId = none) ||
    !(page.any (fun p => decide (some p.id = c.parentId))))

/-- C7 fixtures: A at time 1 with reply B at time 2; offset 1 keeps only B
on the page, and B's parent A is outside the page. -/
def cmC7A : Comment := { baseComment with id := "A", userId := "U1", createdAt := 1 }

def cmC7B : Comment :=
  { baseComment with id := "B", userId := "U2", createdAt := 2, parentId := some "A" }

def storeC7 : CommentStore :=
  { comments := [("A", cmC7A), ("B", cmC7B)],
    threadComments := [("thread:T1", ["A", "B"])] }

/-- Counterexample to claim C7 as stated: with offset 1 the selected page
is [B], whose parent is outside the page, so the claim predicts B as a
top-level node; getCommentsForThread instead returns no nodes at all — the
orphaned page comment is dropped, not promoted. -/
theorem c7_listForAnchor_counterexample :
    specTopLevelNodes (CommentManager.pageFor storeC7 "T1" "thread" 50 1) = [cmC7B] ∧
    (CommentManager.getCommentsForThread storeC7 "T1" "thread" 50 1).length = 0 := by
  decide

/-- Witness for the amended C7 on a concrete store and an explicit rank
function certifying acyclicity. -/
theorem c7_listForAnchor_amended_witness :
    List.Sorted createdLE
      (sortByCreatedAt (CommentManager.flatForThread storeC7 "T1" "thread")) ∧
    (CommentManager.getCommentsForThread storeC7 "T1" "thread" 50 0).map rootOf =
      (CommentManager.pageFor storeC7 "T1" "thread" 50 0).filter
        (fun c => decide (c.parentId = none)) := by
  have h := c7_listForAnchor_amended storeC7 "T1" "thread" 50 0
    (fun i => if i = "A" then 0 else 1) (by decide)
  exact ⟨h.1, h.2.2.2.1⟩
